import Mathlib

/-!
Verification development for the `docker-volume-manager` (dvm) repository.

The Go sources are shallowly embedded as executable Lean definitions: pure
helpers become Lean functions; interactions with the container engine, the
metadata store, the process environment and the filesystem become explicit
parameters (oracles and lists standing for the external state).  Times are
modelled as `Int` Unix seconds, Go durations as second counts; Go's zero
`time.Time` is modelled as the value `0`.  Go byte indexing of strings is
modelled on characters, which coincides for ASCII data.
-/

namespace Dvm

/-! ## internal/compose/compose.go: project-name normalization -/

/-- Character predicate of the keep-branch inside `normalizeProjectName`:
`(r >= 'a' && r <= 'z') || (r >= '0' && r <= '9') || r == '-' || r == '_' || r == '.'`. -/
def isAllowedChar (c : Char) : Bool :=
  ('a' ≤ c && c ≤ 'z') || ('0' ≤ c && c ≤ '9') || c == '-' || c == '_' || c == '.'

/-- Characters of the cut set in `strings.TrimLeft(b.String(), "-_.")`. -/
def isSepChar (c : Char) : Bool :=
  c == '-' || c == '_' || c == '.'

/-- Go function `normalizeProjectName` (compose.go): lowercase the input, keep
only `[a-z0-9_.-]`, then trim the leading run of `-`, `_`, `.`.  Lowercasing is
`Char.toLower` (ASCII); Go's `strings.ToLower` also folds non-ASCII letters,
but non-ASCII characters are removed by the subsequent filter in either form,
so the composition agrees. -/
def normalizeProjectName (name : String) : String :=
  ⟨((name.data.map Char.toLower).filter isAllowedChar).dropWhile isSepChar⟩

/-! ## internal/compose/compose.go: the compose data model -/

/-- A decoded YAML scalar as far as the Go code inspects it: the
`interface{}` values in a long-form volume entry are only ever tested with a
string type assertion, so everything non-string collapses to `.other`. -/
inductive YVal where
  | str (s : String)
  | other
deriving DecidableEq

/-- One entry of a service's `volumes` list: Go `[]interface{}` holding either
a short-form string or a long-form map (of which `GetVolumeMapping` reads the
keys `source`, `target` and `type`, each possibly absent). -/
inductive VolSpec where
  | short (v : String)
  | long (source target typ : Option YVal)
deriving DecidableEq

/-- Go struct `VolumeMapping` (compose.go). -/
structure VolumeMapping where
  volumeName : String
  mountPath : String
  service : String
deriving DecidableEq

/-- Go struct `ComposeFile` (compose.go); `Services` is a Go map, modelled as
an association list; the `Volumes` top-level key is never read by the embedded
functions and is omitted. -/
structure ComposeFile where
  name : String
  services : List (String × List VolSpec)
  path : String

/-- Model of Go `strings.HasPrefix(s, p)` (kernel-reducible, unlike
`String.startsWith`). -/
def hasPre (s p : String) : Bool :=
  p.data.isPrefixOf s.data

/-- Model of Go `strings.HasSuffix(s, p)`. -/
def hasSuf (s p : String) : Bool :=
  p.data.isSuffixOf s.data

/-- Model of Go `strings.Split(v, sep)` for a one-character separator, on
character lists. -/
def splitChar (sep : Char) : List Char → List (List Char)
  | [] => [[]]
  | c :: rest =>
    match splitChar sep rest with
    | [] => [[c]]
    | h :: t => if c == sep then [] :: h :: t else (c :: h) :: t

/-- Model of Go `strings.Split(v, ":")` returning strings. -/
def splitOnColon (v : String) : List String :=
  (splitChar ':' v.data).map (⟨·⟩)

/-- The bind-mount exclusion used twice in `GetVolumeMapping`:
`!strings.HasPrefix(source, "/") && !strings.HasPrefix(source, ".") && !strings.HasPrefix(source, "~")`. -/
def isNamedVolumeSource (source : String) : Bool :=
  !(hasPre source "/") && !(hasPre source ".") && !(hasPre source "~")

/-- Loop body of `GetVolumeMapping` (compose.go): what one `volSpec` entry
contributes (`none` models Go's `continue`). -/
def mappingOfSpec (serviceName : String) (spec : VolSpec) : Option VolumeMapping :=
  match spec with
  | .short v =>
    match splitOnColon v with
    | source :: target :: _ =>
      if isNamedVolumeSource source then
        some ⟨source, target, serviceName⟩
      else none
    | _ => none
  | .long sourceVal targetVal typeVal =>
    match sourceVal, targetVal with
    | some (.str source), some (.str target) =>
      if source = "" ∨ target = "" then none
      else
        match typeVal with
        | some (.str typeStr) =>
          if typeStr ≠ "volume" then none
          else if isNamedVolumeSource source then
            some ⟨source, target, serviceName⟩
          else none
        | _ =>
          if isNamedVolumeSource source then
            some ⟨source, target, serviceName⟩
          else none
    | _, _ => none

/-- The mapping list `GetVolumeMapping` builds for one service's spec list. -/
def volumeMappingsOf (serviceName : String) (specs : List VolSpec) : List VolumeMapping :=
  specs.filterMap (mappingOfSpec serviceName)

/-- Go method `GetVolumeMapping` (compose.go); `none` models the
`service not found` error. -/
def GetVolumeMapping (cf : ComposeFile) (serviceName : String) :
    Option (List VolumeMapping) :=
  match cf.services.lookup serviceName with
  | some specs => some (volumeMappingsOf serviceName specs)
  | none => none

/-- Go method `GetAllVolumeMappings` (compose.go); the iteration order over
the Go map is modelled by the association-list order. -/
def GetAllVolumeMappings (cf : ComposeFile) : List VolumeMapping :=
  cf.services.foldr (fun p acc => volumeMappingsOf p.1 p.2 ++ acc) []

/-- The `seen` map deduplication loop of `GetAllFullVolumeNames`. -/
def dedupAux : List String → List String → List String
  | [], _ => []
  | n :: rest, seen =>
    if n ∈ seen then dedupAux rest seen else n :: dedupAux rest (n :: seen)

/-- Go method `GetAllFullVolumeNames` (compose.go): all
`projectName + "_" + declaredName` values with first-occurrence
deduplication. -/
def GetAllFullVolumeNames (cf : ComposeFile) (projectName : String) : List String :=
  dedupAux ((GetAllVolumeMappings cf).map
    (fun m => projectName ++ "_" ++ m.volumeName)) []

/-! ## Go stdlib path helpers (external contract)

Models of `path/filepath.Dir` and `path/filepath.Base` for slash-separated
paths, exact for paths free of `.`/`..` components and of repeated
separators (Go additionally runs `Clean`, which is the identity on such
paths). -/

/-- Model of Go `filepath.Base`. -/
def filepathBase (p : String) : String :=
  if p = "" then "."
  else
    let cs := p.data.reverse.dropWhile (· == '/')
    if cs = [] then "/"
    else ⟨(cs.takeWhile (· ≠ '/')).reverse⟩

/-- Model of Go `filepath.Dir`. -/
def filepathDir (p : String) : String :=
  let rev := p.data.reverse
  let afterSlash := rev.takeWhile (· ≠ '/')
  if afterSlash.length = p.data.length then "."
  else
    let before := (rev.drop (afterSlash.length + 1)).dropWhile (· == '/')
    if before = [] then "/" else ⟨before.reverse⟩

/-- Go method `GetProjectName` (compose.go).  `envCPN` is the value of
`os.Getenv("COMPOSE_PROJECT_NAME")` (empty when unset); `getwd` is the result
of `os.Getwd()`, `none` standing for its error case. -/
def GetProjectName (cf : ComposeFile) (envCPN : String) (getwd : Option String)
    (override : String) : String :=
  if override ≠ "" then normalizeProjectName override
  else if cf.name ≠ "" then normalizeProjectName cf.name
  else if envCPN ≠ "" then normalizeProjectName envCPN
  else
    let dir := filepathDir cf.path
    if dir = "." then
      match getwd with
      | some cwd => normalizeProjectName (filepathBase cwd)
      | none => normalizeProjectName (filepathBase dir)
    else normalizeProjectName (filepathBase dir)

/-! ## internal/compose: environment substitution

The function `expandEnvVars` is exercised by compose_test.go
(`TestExpandEnvVars`, `TestLoadComposeFileExpandsEnvVars`) but its definition
is not among the retrieved sources, so it is modelled from the spec. -/

/-- Leading character of a variable name, spec: names match
`[A-Za-z_][A-Za-z0-9_]*`. -/
def isVarStart (c : Char) : Bool :=
  ('A' ≤ c && c ≤ 'Z') || ('a' ≤ c && c ≤ 'z') || c == '_'

/-- Continuation character of a variable name. -/
def isVarChar (c : Char) : Bool :=
  isVarStart c || ('0' ≤ c && c ≤ '9')

/-- Modelled from the spec: the scanning loop of the missing `expandEnvVars`.
Escape forms `$$` and `$$\x7b...\x7d` are detected before generic expansion
and emit a literal `$`; `$\x7bNAME\x7d` / `$NAME` substitute the value, empty
when unset; `:-default` substitutes when unset or set-to-empty, `-default`
only when unset; malformed patterns pass through verbatim.  `env` is
`os.LookupEnv` (`none` = unset); the fuel argument bounds the recursion and
one character is consumed per step, so `fuel = length` never runs out. -/
def expandAux (env : String → Option String) : Nat → List Char → List Char
  | 0, cs => cs
  | _ + 1, [] => []
  | fuel + 1, '$' :: rest =>
    match rest with
    | '$' :: rest' => '$' :: expandAux env fuel rest'
    | '\x7b' :: rest' =>
      let content := rest'.takeWhile (· ≠ '\x7d')
      match rest'.drop content.length with
      | _ :: afterBrace =>
        match content with
        | c :: _ =>
          if isVarStart c then
            let name := content.takeWhile isVarChar
            let tail := content.drop name.length
            match tail with
            | [] =>
              (((env ⟨name⟩).getD "").data) ++ expandAux env fuel afterBrace
            | ':' :: '-' :: dflt =>
              (match env ⟨name⟩ with
               | some v => if v = "" then dflt else v.data
               | none => dflt) ++ expandAux env fuel afterBrace
            | '-' :: dflt =>
              (match env ⟨name⟩ with
               | some v => v.data
               | none => dflt) ++ expandAux env fuel afterBrace
            | _ =>
              '$' :: '\x7b' :: (content ++ '\x7d' :: expandAux env fuel afterBrace)
          else '$' :: '\x7b' :: (content ++ '\x7d' :: expandAux env fuel afterBrace)
        | [] => '$' :: '\x7b' :: '\x7d' :: expandAux env fuel afterBrace
      | [] => '$' :: '\x7b' :: rest'
    | c :: rest' =>
      if isVarStart c then
        let name := rest.takeWhile isVarChar
        (((env ⟨name⟩).getD "").data) ++ expandAux env fuel (rest.drop name.length)
      else '$' :: expandAux env fuel (c :: rest')
    | [] => ['$']
  | fuel + 1, c :: rest => c :: expandAux env fuel rest

/-- Modelled from the spec: `expandEnvVars`, shell-style environment
substitution over the raw text. -/
def expandEnvVars (env : String → Option String) (s : String) : String :=
  ⟨expandAux env s.data.length s.data⟩

/-! ## internal/commands/utils.go -/

/-- Go function `GenerateBackupFilename` (utils.go); the `time.Now()` stamp is
a parameter. -/
def GenerateBackupFilename (serviceName fmtStr timestamp : String) : String :=
  let extension :=
    if fmtStr = "tar.zst" then ".tar.zst"
    else if fmtStr = "tar" then ".tar"
    else ".tar.gz"
  serviceName ++ "_" ++ timestamp ++ extension

/-- One file of the backup directory: name and modification time. -/
structure FileEntry where
  name : String
  mtime : Int
deriving DecidableEq

/-- Whether a file name matches the glob `serviceName_*.tar.gz` (resp. the
`tar.zst` variant): directory entries contain no separator, so the glob is
prefix `serviceName_`, suffix `ext`, with no overlap between the two. -/
def matchesBackupGlob (serviceName ext name : String) : Bool :=
  hasPre name (serviceName ++ "_") && hasSuf name ext &&
    (serviceName ++ "_").data.length + ext.data.length ≤ name.data.length

/-- The most-recent selection loop of `FindBackupFile`: keep the entry whose
modification time the current candidate's strictly exceeds
(`info.ModTime().After(latestTime)`), so the earliest listed wins ties. -/
def latestFile (matchList : List FileEntry) : Option FileEntry :=
  matchList.foldl
    (fun latest f =>
      match latest with
      | none => some f
      | some g => if g.mtime < f.mtime then some f else latest)
    none

/-- Go function `FindBackupFile` (utils.go): glob for `serviceName_*.tar.gz`;
only when that has no matches, glob for `serviceName_*.tar.zst`; return the
newest match (`none` models `ErrBackupNotFound`).  `files` is the backup
directory's listing. -/
def FindBackupFile (files : List FileEntry) (serviceName : String) : Option FileEntry :=
  let matchList := files.filter (fun f => matchesBackupGlob serviceName ".tar.gz" f.name)
  let matchList :=
    if matchList.isEmpty then
      files.filter (fun f => matchesBackupGlob serviceName ".tar.zst" f.name)
    else matchList
  latestFile matchList

/-- Definition following the spec's words, for comparison with
`FindBackupFile`: the newest-modification-time file among all matches across
the supported archive extensions. -/
def findBackupFileSpec (files : List FileEntry) (serviceName : String) : Option FileEntry :=
  latestFile (files.filter (fun f =>
    matchesBackupGlob serviceName ".tar.gz" f.name ||
      matchesBackupGlob serviceName ".tar.zst" f.name))

/-! ## internal/database (second document of config.go) -/

/-- Go struct `BackupRecord` (database package). -/
structure BackupRecord where
  id : Nat
  volumeName : String
  serviceName : String
  projectName : String
  filePath : String
  size : Int
  createdAt : Int
  tag : String
  checksum : String
deriving DecidableEq

/-- Go method `CleanupOldBackups` (database package) applied to the list that
`GetBackupRecords` returns for the volume, which SQL orders by `created_at`
descending (newest first): when more than `keepGenerations` records exist the
tail beyond the first `keepGenerations` is deleted and returned, else
nothing.  Call sites guard `keepGenerations > 0`, so it is a `Nat` here. -/
def CleanupOldBackups (records : List BackupRecord) (keepGenerations : Nat) :
    List BackupRecord :=
  if keepGenerations < records.length then records.drop keepGenerations else []

/-- The file-removal loop after retention in `backupVolume` (backup.go): the
paths handed to `os.Remove`. -/
def backupRetentionDeletedFiles (records : List BackupRecord)
    (keepGenerations : Nat) : List String :=
  (CleanupOldBackups records keepGenerations).map (·.filePath)

/-! ## internal/commands/clean.go -/

/-- Go struct `CleanOptions` (clean.go). -/
structure CleanOptions where
  unused : Bool
  stale : Int
  dryRun : Bool
  archive : Bool
  force : Bool

/-- Go struct `VolumeMetadata` (database package); times in Unix seconds,
`0` modelling Go's zero `time.Time` (`IsZero`). -/
structure VolumeMetadata where
  volumeName : String
  lastAccessed : Int
  lastBackup : Int
  backupCount : Nat

/-- Candidate-selection loop body of `Clean` (clean.go, lines 30-53) for one
volume.  `inUse` is `IsVolumeInUse`, `meta` is `GetVolumeMetadata` (`none`
models a lookup error).  The staleness branch reproduces the source
expression `int(meta.LastAccessed.Sub(meta.LastAccessed).Hours() / 24)`:
the recorded timestamp minus itself, in days. -/
def cleanShouldClean (opts : CleanOptions) (inUse : Bool)
    (meta : Option VolumeMetadata) : Bool :=
  let shouldClean := false
  let shouldClean := if opts.unused && !inUse then true else shouldClean
  if 0 < opts.stale then
    match meta with
    | some m =>
      if m.lastAccessed ≠ 0 then
        let daysSince := (m.lastAccessed - m.lastAccessed) / (24 * 60 * 60)
        if opts.stale ≤ daysSince then true else shouldClean
      else shouldClean
    | none => shouldClean
  else shouldClean

/-- Definition following the spec's words, for comparison with
`cleanShouldClean`: stale when the time elapsed from the recorded last access
to now reaches the threshold in days. -/
def cleanShouldCleanSpec (opts : CleanOptions) (inUse : Bool)
    (meta : Option VolumeMetadata) (now : Int) : Bool :=
  let shouldClean := false
  let shouldClean := if opts.unused && !inUse then true else shouldClean
  if 0 < opts.stale then
    match meta with
    | some m =>
      if m.lastAccessed ≠ 0 then
        let daysSince := (now - m.lastAccessed) / (24 * 60 * 60)
        if opts.stale ≤ daysSince then true else shouldClean
      else shouldClean
    | none => shouldClean
  else shouldClean

/-! ## internal/commands: Swap (first document of part_004) -/

/-- Error shape surfaced by `Swap`: either a single wrapped failure, or the
`fmt.Errorf("%w (also failed to restart containers: %v)", err, restartErr)`
combination produced by `restartOnError`. -/
inductive SwapErr where
  | primary (msg : String)
  | combined (msg restartMsg : String)
deriving DecidableEq

/-- The message of the primary failure carried by a `SwapErr`. -/
def SwapErr.primaryMsg : SwapErr → String
  | .primary m => m
  | .combined m _ => m

/-- Go struct `SwapOptions` (part_004). -/
structure SwapOptions where
  empty : Bool
  noBackup : Bool
  restart : Bool
  service : String
  source : String

/-- Oracle for the container-engine calls `Swap` makes from the stop step
onward: the containers currently using the volume, and each step's outcome
(`none` = success). -/
structure SwapEngine where
  containers : List String
  stopErr : Option String
  removeErr : Option String
  createErr : Option String
  restoreErr : Option String
  restartErr : Option String

/-- Result of the modelled `Swap` run: the returned error (if any) and
whether `RestartContainersUsingVolume` was invoked. -/
structure SwapOutcome where
  err : Option SwapErr
  restartInvoked : Bool
deriving DecidableEq

/-- The `restartOnError` closure inside `Swap` (part_004): when containers
were stopped, attempt a restart before surfacing `e`; a restart failure is
combined with `e`, never substituted for it.  Also reports whether the
restart call happened. -/
def restartOnError (eng : SwapEngine) (containersStopped : Bool) (e : String) :
    SwapErr × Bool :=
  if containersStopped && !eng.containers.isEmpty then
    match eng.restartErr with
    | some restartErr => (.combined e restartErr, true)
    | none => (.primary e, true)
  else (.primary e, false)

/-- Go method `Swap` (part_004) from the container-stop step onward (the
resolve and optional-backup steps precede and do not touch the modelled
state).  Mirrors the source's step order: stop, remove, create, optional
restore from `opts.source`, optional restart on success (whose failure is
only warned about). -/
def swapFromStop (eng : SwapEngine) (opts : SwapOptions) : SwapOutcome :=
  if !eng.containers.isEmpty && eng.stopErr.isSome then
    ⟨some (.primary ("failed to stop containers: " ++ eng.stopErr.getD "")), false⟩
  else
    let containersStopped := !eng.containers.isEmpty
    match eng.removeErr with
    | some e =>
      let r := restartOnError eng containersStopped ("failed to remove volume: " ++ e)
      ⟨some r.1, r.2⟩
    | none =>
      match eng.createErr with
      | some e =>
        let r := restartOnError eng containersStopped ("failed to create volume: " ++ e)
        ⟨some r.1, r.2⟩
      | none =>
        match (if opts.source ≠ "" && !opts.empty then eng.restoreErr else none) with
        | some e =>
          let r := restartOnError eng containersStopped ("restore failed: " ++ e)
          ⟨some r.1, r.2⟩
        | none =>
          if opts.restart && !eng.containers.isEmpty then ⟨none, true⟩
          else ⟨none, false⟩

/-- Expected error of a failed step given the restart oracle: combined when
the compensating restart also fails, plain otherwise. -/
def expectedSwapErr (eng : SwapEngine) (msg : String) : SwapErr :=
  match eng.restartErr with
  | some restartErr => .combined msg restartErr
  | none => .primary msg

/-! ## internal/commands: Clone target-name construction (part_004) -/

/-- Target-name construction in the `Clone` of part_004 lines 180-235:
`targetVolume[:len(c.ProjectName)] != c.ProjectName+"_"` guards the
prepending.  Go string slicing panics when the bound exceeds the length;
`none` models that runtime panic. -/
def cloneTargetVolume (projectName newName : String) : Option String :=
  if projectName ≠ "" then
    if projectName.length ≤ newName.length then
      if (⟨newName.data.take projectName.length⟩ : String) ≠ projectName ++ "_" then
        some (projectName ++ "_" ++ newName)
      else some newName
    else none
  else some newName

/-- Target-name construction in the later `Clone` revision (same part, lines
296-304), which tests `strings.HasPrefix(targetVolume, prefix)` instead. -/
def cloneTargetVolumeFixed (projectName newName : String) : String :=
  if projectName ≠ "" then
    if !(hasPre newName (projectName ++ "_")) then
      projectName ++ "_" ++ newName
    else newName
  else newName

/-! ## Helper lemmas -/

theorem allowed_toLower {c : Char} (h : isAllowedChar c = true) :
    Char.toLower c = c := by
  simp only [isAllowedChar, Bool.or_eq_true, Bool.and_eq_true, beq_iff_eq,
    decide_eq_true_eq] at h
  have hn : ¬(c.toNat ≥ 65 ∧ c.toNat ≤ 90) := by
    rcases h with (((⟨h1, h2⟩ | ⟨h1, h2⟩) | h) | h) | h
    · have g1 : 97 ≤ c.toNat := h1
      omega
    · have g2 : c.toNat ≤ 57 := h2
      omega
    · subst h; decide
    · subst h; decide
    · subst h; decide
  simp only [Char.toLower]
  rw [if_neg hn]

theorem mem_normalize_allowed {name : String} {c : Char}
    (h : c ∈ (normalizeProjectName name).data) : isAllowedChar c = true := by
  simp only [normalizeProjectName] at h
  have hsub := (List.dropWhile_sublist (p := isSepChar)
    (l := (name.data.map Char.toLower).filter isAllowedChar)).subset h
  exact List.of_mem_filter hsub

/-! ## C6: normalization is total and idempotent, and its output is empty or
`[a-z0-9][a-z0-9_.-]*` -/

/-- C6: for every input, `normalizeProjectName` is idempotent, and its output
is either empty or consists of characters of `[a-z0-9_.-]` with a first
character in `[a-z0-9]` (the leading separator run having been stripped). -/
theorem normalizeProjectName_idempotent_and_shape (x : String) :
    normalizeProjectName (normalizeProjectName x) = normalizeProjectName x ∧
      (normalizeProjectName x = "" ∨
        ∃ c cs, (normalizeProjectName x).data = c :: cs ∧
          (('a' ≤ c ∧ c ≤ 'z') ∨ ('0' ≤ c ∧ c ≤ '9')) ∧
          ∀ d ∈ c :: cs, isAllowedChar d = true) := by
  constructor
  · apply String.ext
    set y := (normalizeProjectName x).data with hy
    have hall : ∀ c ∈ y, isAllowedChar c = true := fun c hc => mem_normalize_allowed hc
    show ((y.map Char.toLower).filter isAllowedChar).dropWhile isSepChar = y
    have hmap : y.map Char.toLower = y := by
      calc y.map Char.toLower = y.map id :=
            List.map_congr_left fun c hc => allowed_toLower (hall c hc)
        _ = y := List.map_id y
    rw [hmap]
    have hfil : y.filter isAllowedChar = y := List.filter_eq_self.mpr hall
    rw [hfil, hy]
    show List.dropWhile isSepChar (normalizeProjectName x).data = (normalizeProjectName x).data
    simp only [normalizeProjectName]
    exact List.dropWhile_idempotent _ _
  · rcases hdata : (normalizeProjectName x).data with _ | ⟨c, cs⟩
    · left
      apply String.ext
      rw [hdata]
    · right
      refine ⟨c, cs, rfl, ?_, ?_⟩
      · have hc : isAllowedChar c = true :=
          mem_normalize_allowed (hdata ▸ List.mem_cons_self c cs)
        have hns : isSepChar c = false := by
          have := List.dropWhile_get_zero_not isSepChar
            ((x.data.map Char.toLower).filter isAllowedChar)
            (by simp only [normalizeProjectName] at hdata; rw [hdata]; simp)
          simp only [normalizeProjectName] at hdata
          simp only [List.get_eq_getElem, hdata] at this
          simpa using this
        simp only [isAllowedChar, Bool.or_eq_true, Bool.and_eq_true, beq_iff_eq,
          decide_eq_true_eq] at hc
        rcases hc with (((h | h) | h) | h) | h
        · exact Or.inl h
        · exact Or.inr h
        · subst h; exact absurd hns (by decide)
        · subst h; exact absurd hns (by decide)
        · subst h; exact absurd hns (by decide)
      · intro d hd
        exact mem_normalize_allowed (hdata ▸ hd)

/-! ## C5: project-name resolution priority -/

/-- C5: for every combination of presence of override, declared name,
environment variable and directory, `GetProjectName` returns the
normalization of the highest-priority present source, in the order
override > declared name > environment variable > directory basename; and
when the definition path has no directory component (its `Dir` is the
current-directory marker `.`), the basename of the live working directory is
used instead of that marker. -/
theorem GetProjectName_priority (cf : ComposeFile) (envCPN cwd override : String) :
    (override ≠ "" → GetProjectName cf envCPN (some cwd) override =
      normalizeProjectName override) ∧
    (override = "" → cf.name ≠ "" → GetProjectName cf envCPN (some cwd) override =
      normalizeProjectName cf.name) ∧
    (override = "" → cf.name = "" → envCPN ≠ "" →
      GetProjectName cf envCPN (some cwd) override = normalizeProjectName envCPN) ∧
    (override = "" → cf.name = "" → envCPN = "" → filepathDir cf.path ≠ "." →
      GetProjectName cf envCPN (some cwd) override =
        normalizeProjectName (filepathBase (filepathDir cf.path))) ∧
    (override = "" → cf.name = "" → envCPN = "" → filepathDir cf.path = "." →
      GetProjectName cf envCPN (some cwd) override =
        normalizeProjectName (filepathBase cwd)) := by
  refine ⟨fun h1 => ?_, fun h1 h2 => ?_, fun h1 h2 h3 => ?_,
    fun h1 h2 h3 h4 => ?_, fun h1 h2 h3 h4 => ?_⟩
  · simp [GetProjectName, h1]
  · simp [GetProjectName, h1, h2]
  · simp [GetProjectName, h1, h2, h3]
  · simp [GetProjectName, h1, h2, h3, h4]
  · simp [GetProjectName, h1, h2, h3, h4]

/-- Witness for C5 at concrete inputs: the override wins over all other
present sources, and a bare file name resolves through the working
directory's basename. -/
theorem GetProjectName_priority_witness :
    GetProjectName ⟨"FromFile", [], "/tmp/P/compose.yaml"⟩ "envName"
        (some "/tmp/Cwd") "OverrideName" = normalizeProjectName "OverrideName" ∧
    GetProjectName ⟨"", [], "compose.yaml"⟩ "" (some "/tmp/CapsProject") "" =
      normalizeProjectName (filepathBase "/tmp/CapsProject") := by
  constructor
  · exact (GetProjectName_priority ⟨"FromFile", [], "/tmp/P/compose.yaml"⟩
      "envName" "/tmp/Cwd" "OverrideName").1 (by decide)
  · exact (GetProjectName_priority ⟨"", [], "compose.yaml"⟩ "" "/tmp/CapsProject"
      "").2.2.2.2 rfl rfl rfl (by decide)

/-! ## C1: Clean's staleness selection (code bug) -/

/-- C1: the staleness test of `Clean` subtracts the recorded last-access time
from itself, so its day count is always zero and, with the unused predicate
disabled, no volume is ever selected, for any threshold and any metadata;
in particular a volume last accessed 100 days before now is not selected at
threshold 30, while the spec-following predicate selects it. -/
theorem Clean_stale_selection_code_bug :
    (∀ (stale : Int) (dr ar fo inUse : Bool) (m : VolumeMetadata),
      cleanShouldClean ⟨false, stale, dr, ar, fo⟩ inUse (some m) = false) ∧
    cleanShouldClean ⟨false, 30, false, false, false⟩ false
        (some ⟨"myproject_db", 1751360000, 0, 0⟩) = false ∧
    cleanShouldCleanSpec ⟨false, 30, false, false, false⟩ false
        (some ⟨"myproject_db", 1751360000, 0, 0⟩) 1760000000 = true ∧
    30 ≤ ((1760000000 : Int) - 1751360000) / (24 * 60 * 60) := by
  refine ⟨?_, by decide, by decide, by decide⟩
  intro stale dr ar fo inUse m
  simp only [cleanShouldClean, Bool.false_and, Bool.if_false_left]
  split
  · next hpos =>
    split
    · next hz =>
      have hzero : (m.lastAccessed - m.lastAccessed) / (24 * 60 * 60) = (0 : Int) := by
        rw [sub_self]
        simp
      rw [hzero, if_neg (by omega)]
      rfl
    · rfl
  · rfl

/-! ## C10: Clone target-name construction (code bug) -/

/-- C10: the cited `Clone` slices the new name to the project name's length,
which panics when the new name is shorter than the project name
(`cloneTargetVolume "myproject" "db" = none` models the panic) and otherwise
compares a slice of the wrong length against `projectName + "_"`, so the
prefix is prepended even when already present; the later revision of the same
function behaves as the claim states on both inputs. -/
theorem Clone_targetVolume_code_bug :
    cloneTargetVolume "myproject" "db" = none ∧
    cloneTargetVolume "p" "p_db" = some "p_p_db" ∧
    cloneTargetVolumeFixed "myproject" "db" = "myproject_db" ∧
    cloneTargetVolumeFixed "p" "p_db" = "p_db" := by
  refine ⟨by decide, by decide, by decide, by decide⟩

/-! ## C2: environment-substitution semantics (modelled from the spec, the
function itself being absent from the retrieved sources) -/

/-- C2: over the substitution model, with `X` respectively unset, set to the
empty string, and set to `v`: `$\x7bX:-d\x7d` yields `d`, `d`, `v`;
`$\x7bX-d\x7d` yields `d`, the empty string, `v`; the escape forms `$$X`
and `$$\x7bX\x7d` emit a literal `$X` / `$\x7bX\x7d`; and the malformed
patterns `$\x7b\x7d`, `$\x7b1\x7d`, `$\x7b-d\x7d` pass through
verbatim. -/
theorem expandEnvVars_substitution_semantics :
    (expandEnvVars (fun _ => none) "$\x7bX:-d\x7d" = "d" ∧
     expandEnvVars (fun n => if n = "X" then some "" else none) "$\x7bX:-d\x7d" = "d" ∧
     expandEnvVars (fun n => if n = "X" then some "v" else none) "$\x7bX:-d\x7d" = "v") ∧
    (expandEnvVars (fun _ => none) "$\x7bX-d\x7d" = "d" ∧
     expandEnvVars (fun n => if n = "X" then some "" else none) "$\x7bX-d\x7d" = "" ∧
     expandEnvVars (fun n => if n = "X" then some "v" else none) "$\x7bX-d\x7d" = "v") ∧
    (expandEnvVars (fun n => if n = "X" then some "v" else none) "$$X" = "$X" ∧
     expandEnvVars (fun n => if n = "X" then some "v" else none) "$$\x7bX\x7d" =
       "$\x7bX\x7d") ∧
    (expandEnvVars (fun _ => none) "$\x7b\x7d" = "$\x7b\x7d" ∧
     expandEnvVars (fun _ => none) "$\x7b1\x7d" = "$\x7b1\x7d" ∧
     expandEnvVars (fun _ => none) "$\x7b-d\x7d" = "$\x7b-d\x7d") ∧
    (expandEnvVars (fun n => if n = "X" then some "v" else none) "$X" = "v" ∧
     expandEnvVars (fun _ => none) "$\x7bX\x7d" = "" ∧
     expandEnvVars (fun n => if n = "A" then some "m" else none)
       "pre-$\x7bA\x7d-post" = "pre-m-post") := by
  decide

/-! ## C7: named-volume classification -/

/-- C7: a short-form spec that splits into source and target is included
exactly when its source does not begin with `/`, `.` or `~`; a long-form
entry with non-empty string source and target is included exactly when its
source passes the same test and any explicitly given string `type` equals
`volume`; in particular the sources `/abs`, `./rel`, `~/home` are never
classified as named volumes while the bare token `data` is. -/
theorem GetVolumeMapping_named_volume_classification :
    (∀ svc v source target rest, splitOnColon v = source :: target :: rest →
      ((mappingOfSpec svc (.short v)).isSome ↔ isNamedVolumeSource source = true)) ∧
    (∀ svc source target typeVal, source ≠ "" → target ≠ "" →
      ((mappingOfSpec svc
          (.long (some (.str source)) (some (.str target)) typeVal)).isSome ↔
        (isNamedVolumeSource source = true ∧
          ∀ ts, typeVal = some (.str ts) → ts = "volume"))) ∧
    (∀ svc, mappingOfSpec svc (.short "/abs:/m") = none ∧
      mappingOfSpec svc (.short "./rel:/m") = none ∧
      mappingOfSpec svc (.short "~/home:/m") = none ∧
      mappingOfSpec svc (.short "data:/m") = some ⟨"data", "/m", svc⟩) := by
  refine ⟨?_, ?_, ?_⟩
  · intro svc v source target rest hsplit
    simp only [mappingOfSpec, hsplit]
    by_cases hn : isNamedVolumeSource source = true
    · simp [hn]
    · simp [hn]
  · intro svc source target typeVal hs ht
    rcases typeVal with _ | ⟨ts | _⟩
    · simp only [mappingOfSpec, if_neg (not_or.mpr ⟨hs, ht⟩)]
      by_cases hn : isNamedVolumeSource source = true
      · simp [hn]
      · simp [hn]
    · simp only [mappingOfSpec, if_neg (not_or.mpr ⟨hs, ht⟩)]
      by_cases hv : ts = "volume"
      · subst hv
        by_cases hn : isNamedVolumeSource source = true
        · simp [hn]
        · simp [hn]
      · simp [hv]
    · simp only [mappingOfSpec, if_neg (not_or.mpr ⟨hs, ht⟩)]
      by_cases hn : isNamedVolumeSource source = true
      · simp [hn]
      · simp [hn]
  · intro svc
    refine ⟨by simp [mappingOfSpec, splitOnColon, splitChar, isNamedVolumeSource, hasPre,
        List.isPrefixOf], ?_, ?_, ?_⟩
    · simp [mappingOfSpec, splitOnColon, splitChar, isNamedVolumeSource, hasPre,
        List.isPrefixOf]
    · simp [mappingOfSpec, splitOnColon, splitChar, isNamedVolumeSource, hasPre,
        List.isPrefixOf]
    · simp [mappingOfSpec, splitOnColon, splitChar, isNamedVolumeSource, hasPre,
        List.isPrefixOf]

/-- Witness for C7 at concrete inputs: the short form `data:/m` is included
for a source passing the bind-mount test, and a long-form entry with
`type: volume` is included. -/
theorem GetVolumeMapping_named_volume_classification_witness :
    (mappingOfSpec "web" (VolSpec.short "data:/m")).isSome = true ∧
    (mappingOfSpec "web" (VolSpec.long (some (.str "data")) (some (.str "/m"))
        (some (.str "volume")))).isSome = true := by
  constructor
  · exact (GetVolumeMapping_named_volume_classification.1 "web" "data:/m" "data"
      "/m" [] (by decide)).mpr (by decide)
  · exact ((GetVolumeMapping_named_volume_classification.2.1 "web" "data" "/m"
      (some (.str "volume")) (by decide) (by decide)).mpr
      ⟨by decide, fun ts hts => by injection hts with h1; injection h1 with h2; exact h2.symm⟩)

/-! ## C3: backup retention -/

/-- C3: applied to a volume's ledger sorted newest-first by creation time
(as `GetBackupRecords` orders it), retention with keep count `N > 0` deletes
exactly the records beyond the `N` newest — every deleted record is as old
as every kept one, the kept ones are the first `N` and together they
reconstitute the ledger — and the file-deletion loop removes exactly the
deleted records' paths; consequently on a ledger of `N + 1` records exactly
the single oldest record is removed and the `N` newest remain. -/
theorem CleanupOldBackups_retention (l : List BackupRecord) (N : Nat)
    (hsort : l.Pairwise (fun a b => b.createdAt ≤ a.createdAt)) (_hN : 0 < N) :
    (∀ d ∈ CleanupOldBackups l N, ∀ k ∈ l.take N, d.createdAt ≤ k.createdAt) ∧
    (N < l.length → l.take N ++ CleanupOldBackups l N = l ∧ (l.take N).length = N ∧
      backupRetentionDeletedFiles l N = (l.drop N).map (·.filePath)) ∧
    (l.length ≤ N → CleanupOldBackups l N = []) ∧
    (l.length = N + 1 → ∃ r, CleanupOldBackups l N = [r] ∧ r ∈ l ∧
      (∀ s ∈ l, r.createdAt ≤ s.createdAt) ∧ l.take N ++ [r] = l) := by
  have hsplit : l.take N ++ l.drop N = l := List.take_append_drop N l
  have hpw : ∀ k ∈ l.take N, ∀ d ∈ l.drop N, d.createdAt ≤ k.createdAt := by
    rw [← hsplit] at hsort
    exact (List.pairwise_append.mp hsort).2.2
  refine ⟨?_, ?_, ?_, ?_⟩
  · intro d hd k hk
    by_cases hlen : N < l.length
    · rw [CleanupOldBackups, if_pos hlen] at hd
      exact hpw k hk d hd
    · rw [CleanupOldBackups, if_neg hlen] at hd
      exact absurd hd (List.not_mem_nil d)
  · intro hlen
    rw [CleanupOldBackups, if_pos hlen]
    refine ⟨hsplit, ?_, ?_⟩
    · rw [List.length_take]
      omega
    · rw [backupRetentionDeletedFiles, CleanupOldBackups, if_pos hlen]
  · intro hlen
    rw [CleanupOldBackups, if_neg (by omega)]
  · intro hlen
    have hlt : N < l.length := by omega
    have hone : (l.drop N).length = 1 := by
      rw [List.length_drop]
      omega
    obtain ⟨r, hr⟩ := List.length_eq_one.mp hone
    refine ⟨r, ?_, ?_, ?_, ?_⟩
    · rw [CleanupOldBackups, if_pos hlt, hr]
    · exact (List.drop_sublist N l).subset (hr ▸ List.mem_singleton_self r)
    · intro s hs
      rw [← hsplit] at hs
      rcases List.mem_append.mp hs with hs | hs
      · exact hpw s hs r (hr ▸ List.mem_singleton_self r)
      · rw [hr] at hs
        rw [List.mem_singleton.mp hs]
    · rw [← hr]
      exact hsplit

/-- Witness for C3: a two-record ledger with keep count 1 loses exactly its
oldest record, keeping the newest. -/
theorem CleanupOldBackups_retention_witness :
    CleanupOldBackups
        [⟨2, "v", "s", "p", "f2", 0, 10, "", ""⟩, ⟨1, "v", "s", "p", "f1", 0, 5, "", ""⟩]
        1 = [⟨1, "v", "s", "p", "f1", 0, 5, "", ""⟩] ∧
      ([⟨2, "v", "s", "p", "f2", 0, 10, "", ""⟩,
        ⟨1, "v", "s", "p", "f1", 0, 5, "", ""⟩] : List BackupRecord).take 1 ++
        [⟨1, "v", "s", "p", "f1", 0, 5, "", ""⟩] =
        [⟨2, "v", "s", "p", "f2", 0, 10, "", ""⟩, ⟨1, "v", "s", "p", "f1", 0, 5, "", ""⟩] := by
  obtain ⟨r, h1, _, _, h4⟩ :=
    (CleanupOldBackups_retention
      [⟨2, "v", "s", "p", "f2", 0, 10, "", ""⟩, ⟨1, "v", "s", "p", "f1", 0, 5, "", ""⟩]
      1 (by decide) (by decide)).2.2.2 (by decide)
  have hval : CleanupOldBackups
      [⟨2, "v", "s", "p", "f2", 0, 10, "", ""⟩, ⟨1, "v", "s", "p", "f1", 0, 5, "", ""⟩]
      1 = [⟨1, "v", "s", "p", "f1", 0, 5, "", ""⟩] := by decide
  have h5 := h1.symm.trans hval
  injection h5 with h6 _
  refine ⟨hval, ?_⟩
  rw [h6] at h4
  exact h4

/-! ## C8: backup-all operates on deduplicated physical names -/

theorem mem_dedupAux (x : String) :
    ∀ (l seen : List String), x ∈ dedupAux l seen ↔ x ∈ l ∧ x ∉ seen := by
  intro l
  induction l with
  | nil => intro seen; simp [dedupAux]
  | cons n rest ih =>
    intro seen
    rw [dedupAux]
    by_cases hn : n ∈ seen
    · rw [if_pos hn, ih]
      constructor
      · rintro ⟨h1, h2⟩
        exact ⟨List.mem_cons_of_mem n h1, h2⟩
      · rintro ⟨h1, h2⟩
        rcases List.mem_cons.mp h1 with h1 | h1
        · exact absurd (h1 ▸ hn) h2
        · exact ⟨h1, h2⟩
    · rw [if_neg hn]
      constructor
      · intro h
        rcases List.mem_cons.mp h with h | h
        · exact ⟨h ▸ List.mem_cons_self n rest, h ▸ hn⟩
        · have := (ih (n :: seen)).mp h
          exact ⟨List.mem_cons_of_mem n this.1,
            fun hx => this.2 (List.mem_cons_of_mem n hx)⟩
      · rintro ⟨h1, h2⟩
        rcases List.mem_cons.mp h1 with h1 | h1
        · exact h1 ▸ List.mem_cons_self n _
        · by_cases hxn : x = n
          · exact hxn ▸ List.mem_cons_self n _
          · exact List.mem_cons_of_mem n ((ih (n :: seen)).mpr
              ⟨h1, fun hx => (List.mem_cons.mp hx).elim hxn h2⟩)

theorem dedupAux_nodup : ∀ (l seen : List String), (dedupAux l seen).Nodup := by
  intro l
  induction l with
  | nil => intro seen; simp [dedupAux]
  | cons n rest ih =>
    intro seen
    rw [dedupAux]
    by_cases hn : n ∈ seen
    · rw [if_pos hn]
      exact ih seen
    · rw [if_neg hn]
      refine List.nodup_cons.mpr ⟨?_, ih (n :: seen)⟩
      intro hmem
      exact ((mem_dedupAux n rest (n :: seen)).mp hmem).2 (List.mem_cons_self n seen)

/-- C8: the volume list a project-wide backup iterates over has no
duplicates and contains exactly the prefixed declared volume names of the
project's mappings; the archive filenames generated from it (from the
physical volume name, at any common timestamp and format) are pairwise
distinct; and two services declaring the same named volume contribute one
single entry. -/
theorem Backup_all_unique_artifacts :
    (∀ (cf : ComposeFile) (projectName : String),
      (GetAllFullVolumeNames cf projectName).Nodup) ∧
    (∀ (cf : ComposeFile) (projectName n : String),
      n ∈ GetAllFullVolumeNames cf projectName ↔
        ∃ m ∈ GetAllVolumeMappings cf, n = projectName ++ "_" ++ m.volumeName) ∧
    (∀ (cf : ComposeFile) (projectName fmtStr timestamp : String),
      ((GetAllFullVolumeNames cf projectName).map
        (fun v => GenerateBackupFilename v fmtStr timestamp)).Nodup) ∧
    GetAllFullVolumeNames
        ⟨"", [("a", [.short "data:/m"]), ("b", [.short "data:/n"])], ""⟩ "p" =
      ["p_data"] := by
  have hinj : ∀ (fmtStr timestamp : String),
      Function.Injective (fun v => GenerateBackupFilename v fmtStr timestamp) := by
    intro fmtStr timestamp v1 v2 h
    simp only [GenerateBackupFilename] at h
    have hd := congrArg String.data h
    simp only [String.data_append, List.append_assoc] at hd
    exact String.ext (List.append_left_injective _ hd)
  refine ⟨?_, ?_, ?_, by decide⟩
  · intro cf projectName
    exact dedupAux_nodup _ []
  · intro cf projectName n
    rw [GetAllFullVolumeNames, mem_dedupAux]
    simp [List.mem_map, eq_comm]
  · intro cf projectName fmtStr timestamp
    exact (dedupAux_nodup _ []).map (hinj fmtStr timestamp)

/-! ## C9: backup-file selection (corrected) -/

/-- The invariant of the `FindBackupFile` selection loop: folding from a
current best `g` yields a member of the list (or `g` itself) whose time
bounds everything seen. -/
theorem latestFile_go (l : List FileEntry) :
    ∀ g : FileEntry, ∃ h : FileEntry,
      l.foldl
        (fun latest f =>
          match latest with
          | none => some f
          | some g => if g.mtime < f.mtime then some f else latest)
        (some g) = some h ∧
      (h ∈ l ∨ h = g) ∧ g.mtime ≤ h.mtime ∧ ∀ x ∈ l, x.mtime ≤ h.mtime := by
  induction l with
  | nil => exact fun g => ⟨g, rfl, Or.inr rfl, le_refl _, by simp⟩
  | cons f t ih =>
    intro g
    by_cases hlt : g.mtime < f.mtime
    · obtain ⟨h, hfold, hmem, hle, hbound⟩ := ih f
      refine ⟨h, ?_, ?_, ?_, ?_⟩
      · simpa [hlt] using hfold
      · rcases hmem with hm | hm
        · exact Or.inl (List.mem_cons_of_mem f hm)
        · exact Or.inl (hm ▸ List.mem_cons_self f t)
      · omega
      · intro x hx
        rcases List.mem_cons.mp hx with hx | hx
        · exact hx ▸ hle
        · exact hbound x hx
    · obtain ⟨h, hfold, hmem, hle, hbound⟩ := ih g
      refine ⟨h, ?_, ?_, hle, ?_⟩
      · simpa [hlt] using hfold
      · rcases hmem with hm | hm
        · exact Or.inl (List.mem_cons_of_mem f hm)
        · exact Or.inr hm
      · intro x hx
        rcases List.mem_cons.mp hx with hx | hx
        · subst hx
          omega
        · exact hbound x hx

theorem latestFile_none_iff (l : List FileEntry) : latestFile l = none ↔ l = [] := by
  cases l with
  | nil => simp [latestFile]
  | cons f t =>
    obtain ⟨h, hfold, _, _, _⟩ := latestFile_go t f
    simp only [latestFile, List.foldl]
    rw [hfold]
    simp

theorem latestFile_mem_max (l : List FileEntry) (f : FileEntry)
    (h : latestFile l = some f) : f ∈ l ∧ ∀ g ∈ l, g.mtime ≤ f.mtime := by
  cases l with
  | nil => simp [latestFile] at h
  | cons a t =>
    obtain ⟨h', hfold, hmem, hle, hbound⟩ := latestFile_go t a
    have : latestFile (a :: t) = some h' := by
      simpa [latestFile, List.foldl] using hfold
    rw [this] at h
    injection h with h
    subst h
    refine ⟨?_, ?_⟩
    · rcases hmem with hm | hm
      · exact List.mem_cons_of_mem a hm
      · exact hm ▸ List.mem_cons_self a t
    · intro g hg
      rcases List.mem_cons.mp hg with hg | hg
      · exact hg ▸ hle
      · exact hbound g hg

/-- C9 as stated fails on the code: in a directory holding a matching
`.tar.gz` of modification time 1 and a matching `.tar.zst` of modification
time 5, `FindBackupFile` returns the `.tar.gz` file although a match across
the supported archive extensions with a strictly newer modification time is
present. -/
theorem FindBackupFile_cross_extension_counterexample :
    FindBackupFile [⟨"db_a.tar.gz", 1⟩, ⟨"db_b.tar.zst", 5⟩] "db" =
      some ⟨"db_a.tar.gz", 1⟩ ∧
    matchesBackupGlob "db" ".tar.zst" "db_b.tar.zst" = true ∧
    (⟨"db_b.tar.zst", 5⟩ : FileEntry) ∈
      ([⟨"db_a.tar.gz", 1⟩, ⟨"db_b.tar.zst", 5⟩] : List FileEntry) ∧
    (1 : Int) < 5 := by
  refine ⟨by decide, by decide, by decide, by decide⟩

/-- C9 amended: absent interactive choice, the file returned is the one with
the newest modification time among the `.tar.gz` matches when at least one
exists, and otherwise among the `.tar.zst` matches; no file is returned
exactly when that candidate class is empty. -/
theorem FindBackupFile_newest_in_chosen_class (files : List FileEntry)
    (serviceName : String) :
    (FindBackupFile files serviceName = none ↔
      (let gz := files.filter (fun f => matchesBackupGlob serviceName ".tar.gz" f.name)
       if gz.isEmpty then
         files.filter (fun f => matchesBackupGlob serviceName ".tar.zst" f.name)
       else gz) = []) ∧
    ∀ f, FindBackupFile files serviceName = some f →
      f ∈ (let gz := files.filter (fun f => matchesBackupGlob serviceName ".tar.gz" f.name)
           if gz.isEmpty then
             files.filter (fun f => matchesBackupGlob serviceName ".tar.zst" f.name)
           else gz) ∧
      ∀ g ∈ (let gz := files.filter (fun f => matchesBackupGlob serviceName ".tar.gz" f.name)
             if gz.isEmpty then
               files.filter (fun f => matchesBackupGlob serviceName ".tar.zst" f.name)
             else gz), g.mtime ≤ f.mtime := by
  constructor
  · exact latestFile_none_iff _
  · intro f hf
    exact latestFile_mem_max _ f hf

/-- Witness for C9 (amended) at a concrete directory: among two `.tar.gz`
matches the newer one is selected, and its time bounds the older match. -/
theorem FindBackupFile_newest_in_chosen_class_witness :
    FindBackupFile [⟨"db_a.tar.gz", 1⟩, ⟨"db_c.tar.gz", 7⟩, ⟨"other_x.tar.gz", 9⟩] "db" =
      some ⟨"db_c.tar.gz", 7⟩ ∧
    (⟨"db_c.tar.gz", 7⟩ : FileEntry) ∈
      ([⟨"db_a.tar.gz", 1⟩, ⟨"db_c.tar.gz", 7⟩, ⟨"other_x.tar.gz", 9⟩] :
        List FileEntry).filter (fun f => matchesBackupGlob "db" ".tar.gz" f.name) ∧
    (1 : Int) ≤ 7 := by
  have h := (FindBackupFile_newest_in_chosen_class
    [⟨"db_a.tar.gz", 1⟩, ⟨"db_c.tar.gz", 7⟩, ⟨"other_x.tar.gz", 9⟩] "db").2
    ⟨"db_c.tar.gz", 7⟩ (by decide)
  exact ⟨by decide, by decide, h.2 ⟨"db_a.tar.gz", 1⟩ (by decide)⟩

/-! ## C4: swap's compensating restart -/

/-- C4: whenever a step from the volume deletion onward fails first while
containers had been stopped, `Swap` invokes the container restart before
returning, and the returned error is the step's failure, combined with the
restart failure when the restart also fails — the primary message of the
returned error is always the original failure's. -/
theorem Swap_restart_compensation (eng : SwapEngine) (opts : SwapOptions) (e : String)
    (hc : eng.containers ≠ []) (hstop : eng.stopErr = none) :
    (∀ m, (expectedSwapErr eng m).primaryMsg = m) ∧
    (eng.removeErr = some e →
      swapFromStop eng opts =
        ⟨some (expectedSwapErr eng ("failed to remove volume: " ++ e)), true⟩) ∧
    (eng.removeErr = none → eng.createErr = some e →
      swapFromStop eng opts =
        ⟨some (expectedSwapErr eng ("failed to create volume: " ++ e)), true⟩) ∧
    (eng.removeErr = none → eng.createErr = none → opts.source ≠ "" →
      opts.empty = false → eng.restoreErr = some e →
      swapFromStop eng opts =
        ⟨some (expectedSwapErr eng ("restore failed: " ++ e)), true⟩) := by
  have hne : eng.containers.isEmpty = false := by
    rw [List.isEmpty_eq_false]
    exact hc
  refine ⟨?_, ?_, ?_, ?_⟩
  · intro m
    rcases hrt : eng.restartErr with _ | re
    · simp [expectedSwapErr, hrt, SwapErr.primaryMsg]
    · simp [expectedSwapErr, hrt, SwapErr.primaryMsg]
  · intro hrm
    simp only [swapFromStop, hne, hstop, hrm, Option.isSome_none, Bool.and_false,
      Bool.false_eq_true, if_false, Bool.not_false, restartOnError, Bool.and_self]
    rcases hrt : eng.restartErr with _ | re
    · simp [expectedSwapErr, hrt]
    · simp [expectedSwapErr, hrt]
  · intro hrm hcr
    simp only [swapFromStop, hne, hstop, hrm, hcr, Option.isSome_none, Bool.and_false,
      Bool.false_eq_true, if_false, Bool.not_false, restartOnError, Bool.and_self]
    rcases hrt : eng.restartErr with _ | re
    · simp [expectedSwapErr, hrt]
    · simp [expectedSwapErr, hrt]
  · intro hrm hcr hsrc hemp hrs
    simp only [swapFromStop, hne, hstop, hrm, hcr, hemp, Option.isSome_none,
      Bool.and_false, Bool.false_eq_true, if_false, Bool.not_false, restartOnError,
      Bool.and_self]
    rw [if_pos (by simp [hsrc])]
    rw [hrs]
    rcases hrt : eng.restartErr with _ | re
    · simp [expectedSwapErr, hrt]
    · simp [expectedSwapErr, hrt]

/-- Witness for C4 at a concrete engine: with one stopped container, a
failing volume removal and a failing restart, the surfaced error combines
both with the removal failure as primary. -/
theorem Swap_restart_compensation_witness :
    swapFromStop ⟨["c1"], none, some "boom", none, none, some "rfail"⟩
        ⟨false, false, false, "db", ""⟩ =
      ⟨some (.combined "failed to remove volume: boom" "rfail"), true⟩ ∧
    (SwapErr.combined "failed to remove volume: boom" "rfail").primaryMsg =
      "failed to remove volume: boom" := by
  constructor
  · exact (Swap_restart_compensation ⟨["c1"], none, some "boom", none, none, some "rfail"⟩
      ⟨false, false, false, "db", ""⟩ "boom" (by decide) rfl).2.1 rfl
  · exact (Swap_restart_compensation ⟨["c1"], none, some "boom", none, none, some "rfail"⟩
      ⟨false, false, false, "db", ""⟩ "boom" (by decide) rfl).1
      "failed to remove volume: boom"

end Dvm
